import Mathlib

/-!
Verification of the golfstream `backend` package (files `backend/create.go`
and `backend/ledis.go`) against its natural-language specification.

The stream-handle operations (`Read`, `Del`, the iterator's `Next`), the
handle table (`GetStream`/`release`) and the registry
(`RegisterCreator`/`Create`) are shallowly embedded below, translated
directly from the Go source.  The storage engine (ledisdb) is an external
collaborator, specified only at its interface boundary: its list primitives
`LLen`/`LClear`/`LTrim`/`LRange`/`RPush`/`LIndex` are modelled as a record
of fallible operations over a single logical list, with Redis-style
inclusive `[start, stop]` range semantics (negative index = offset from the
end), the convention the spec's own testable properties pin down (for
example `Del(1, 4)` on five elements must keep `[e0, e4]`, which forces
`LTrim(0, from-1)` to keep exactly the prefix `[0, from)`).  Each primitive
carries an error switch so that the failure paths of the Go code can be
exercised; when the switch is off the primitive performs its documented
list transformation.
-/

namespace Golfstream

/-- An event payload: `[]byte` in Go, modelled as a list of bytes. -/
abbrev Event := List Nat

/-- Errors visible to the embedded operations: an opaque storage-engine
failure (carrying an arbitrary tag), the `InvalidRange` failure produced by
range validation (carrying the caller label passed to `checkRange`), and
the `stream.EOI` end-of-iteration sentinel. -/
inductive Err where
  | engine : Nat → Err
  | invalidRange : String → Err
  | eoi : Err
deriving DecidableEq, Repr

/-- The storage engine state for one stream key: the logical list plus one
error switch per primitive (`some e` makes that primitive fail with `e`
without mutating anything, `none` makes it succeed). -/
structure DB where
  stream : List Event
  llenErr : Option Err := none
  lclearErr : Option Err := none
  ltrimErr : Option Err := none
  lrangeErr : Option Err := none
  rpushErr : Option Err := none
  lindexErr : Option Err := none
deriving DecidableEq, Repr

/-- Redis-style inclusive slice `[start, stop]` of a list: negative
indices are offsets from the end; the result is empty when the adjusted
start falls at or beyond the length or beyond the adjusted stop; otherwise
start is clamped up to `0` and stop down to `length - 1`.  This is the
range semantics shared by the engine's `LTrim` (which keeps the slice) and
`LRange` (which returns it). -/
def redisSlice (s : List Event) (start stop : Int) : List Event :=
  let len : Int := (s.length : Int)
  let start1 : Int := if start < 0 then len + start else start
  let stop1 : Int := if stop < 0 then len + stop else stop
  if len ≤ start1 ∨ stop1 < start1 then []
  else
    let start2 : Int := max start1 0
    let stop2 : Int := min stop1 (len - 1)
    (s.drop start2.toNat).take (stop2 + 1 - start2).toNat

/-- Engine `LLen`: the current length of the list. -/
def DB.lLen (db : DB) : Except Err Int :=
  match db.llenErr with
  | some e => .error e
  | none => .ok (db.stream.length : Int)

/-- Engine `LClear`: removes the whole list, returning how many elements
were removed. -/
def DB.lClear (db : DB) : Except Err (Int × DB) :=
  match db.lclearErr with
  | some e => .error e
  | none => .ok ((db.stream.length : Int), { db with stream := [] })

/-- Engine `LTrim start stop`: keeps exactly the inclusive slice
`[start, stop]` of the list. -/
def DB.lTrim (db : DB) (start stop : Int) : Except Err DB :=
  match db.ltrimErr with
  | some e => .error e
  | none => .ok { db with stream := redisSlice db.stream start stop }

/-- Engine `LRange start stop`: returns the inclusive slice
`[start, stop]` of the list, without mutating it. -/
def DB.lRange (db : DB) (start stop : Int) : Except Err (List Event) :=
  match db.lrangeErr with
  | some e => .error e
  | none => .ok (redisSlice db.stream start stop)

/-- Engine `RPush`: appends the given events at the tail. -/
def DB.rPush (db : DB) (xs : List Event) : Except Err DB :=
  match db.rpushErr with
  | some e => .error e
  | none => .ok { db with stream := db.stream ++ xs }

/-- Engine `LIndex i`: the element at index `i` (negative = offset from
the end); out of range yields the engine's nil payload, modelled as `[]`. -/
def DB.lIndex (db : DB) (i : Int) : Except Err Event :=
  match db.lindexErr with
  | some e => .error e
  | none =>
    let len : Int := (db.stream.length : Int)
    let j : Int := if i < 0 then len + i else i
    if 0 ≤ j ∧ j < len then .ok (db.stream.getD j.toNat []) else .ok []

/-- Range normalization (spec §4.2, inlined in `Read` lines 77-82 and
`Del` lines 118-123 of `ledis.go`): a negative bound `b` becomes
`length + 1 + b`; non-negative bounds are unchanged. -/
def normalize (f t l : Int) : Int × Int :=
  (if f < 0 then l + 1 + f else f, if t < 0 then l + 1 + t else t)

/-- Modelled from the spec: `checkRange` is repository code that is not
among the given sources (only its call sites in `ledis.go` are).  Per
§4.2, after normalization validation fails with `InvalidRange` (tagged
with the caller's label) unless `0 ≤ from ≤ to ≤ length`. -/
def checkRange (f t l : Int) (label : String) : Option Err :=
  if 0 ≤ f ∧ f ≤ t ∧ t ≤ l then none else some (.invalidRange label)

/-- The value `Read` hands back on success: either `stream.Empty()` or a
`ledisListStream` cursor bound to `[num, l)`. -/
inductive ReadRes where
  | empty : ReadRes
  | iter (num l : Int) : ReadRes
deriving DecidableEq, Repr

/-- `ledisStreamObj.Read` (`ledis.go` lines 63-93).  `readers` is the
shared-hold count of the handle's `delLock`; `RLock` increments it and the
third component of the result is the count when `Read` returns.  Note
that, as in the source, no branch after the `RLock` at line 69 ever
releases the lock: the only release sites in the package are in `Next`. -/
def Read (db : DB) (readers : Int) (afrom : Nat) (ato : Int) :
    Option ReadRes × Option Err × Int :=
  let f : Int := (afrom : Int)
  if f = ato then (some .empty, none, readers)
  else
    let r : Int := readers + 1
    match db.lLen with
    | .error e => (none, some e, r)
    | .ok l =>
      let p := normalize f ato l
      if p.1 = p.2 then (some .empty, none, r)
      else
        match checkRange p.1 p.2 l "ledisStreamObj.Read" with
        | some e => (none, some e, r)
        | none => (some (.iter p.1 p.2), none, r)

/-- The mutable cursor of a `ledisListStream`: current index and exclusive
upper bound. -/
structure IterState where
  num : Int
  l : Int
deriving DecidableEq, Repr

/-- `ledisListStream.Next` (`ledis.go` lines 23-37): at the bound, release
the shared lock and signal `EOI`; on a fetch failure, release the lock and
surface it; otherwise return the element at the cursor and advance. -/
def next (db : DB) (readers : Int) (it : IterState) :
    Except Err Event × IterState × Int :=
  if it.l ≤ it.num then (.error .eoi, it, readers - 1)
  else
    match db.lIndex it.num with
    | .error e => (.error e, it, readers - 1)
    | .ok v => (.ok v, ⟨it.num + 1, it.l⟩, readers)

/-- Fuel-indexed driver for `drain`; the fuel is always instantiated with
one more than the number of remaining elements, so the `0` case is never
reached from `drain`. -/
def drainGo (db : DB) : Nat → Int → IterState → List Event × Option Err × Int
  | 0, readers, _ => ([], none, readers)
  | fuel + 1, readers, it =>
    if it.l ≤ it.num then ([], some .eoi, readers - 1)
    else
      match db.lIndex it.num with
      | .error e => ([], some e, readers - 1)
      | .ok v =>
        let rest := drainGo db fuel readers ⟨it.num + 1, it.l⟩
        (v :: rest.1, rest.2.1, rest.2.2)

/-- Driving a `ledisListStream` to exhaustion, as the caller contract
requires: repeated `Next` calls, collecting the produced events, until
`EOI` or the first error; returns the events, the terminating error and
the shared-hold count after termination. -/
def drain (db : DB) (readers : Int) (it : IterState) :
    List Event × Option Err × Int :=
  drainGo db ((it.l - it.num).toNat + 1) readers it

/-- `ledisStreamObj.Del` (`ledis.go` lines 95-163), returning the Go
`(bool, error)` pair together with the engine state after the call.  The
exclusive lock is taken at entry and released by `defer` on every path, so
it is not tracked.  The branch structure follows the source: raw `from ==
to` no-op; raw `(0, -1)` whole-stream clear; length query; normalization;
whole-stream clear; `from == 0` trim with start `to - 1`; `to == l` trim;
validated middle case reading `[to, l]`, trimming to `[0, from-1]` and
re-appending, surfacing a re-append failure verbatim. -/
def Del (db : DB) (afrom : Nat) (ato : Int) : (Bool × Option Err) × DB :=
  let f : Int := (afrom : Int)
  let t : Int := ato
  if f = t then ((true, none), db)
  else if f = 0 ∧ t = -1 then
    match db.lClear with
    | .error e => ((false, some e), db)
    | .ok (cnt, db1) => ((cnt != 0, none), db1)
  else
    match db.lLen with
    | .error e => ((false, some e), db)
    | .ok l =>
      let p := normalize f t l
      if p.1 = 0 ∧ p.2 = l then
        match db.lClear with
        | .error e => ((false, some e), db)
        | .ok (cnt, db1) => ((cnt != 0, none), db1)
      else if p.1 = 0 then
        match db.lTrim (p.2 - 1) l with
        | .error e => ((false, some e), db)
        | .ok db1 => ((true, none), db1)
      else if p.2 = l then
        match db.lTrim 0 (p.1 - 1) with
        | .error e => ((false, some e), db)
        | .ok db1 => ((true, none), db1)
      else
        match checkRange p.1 p.2 l "ledisStreamObj.Del" with
        | some e => ((false, some e), db)
        | none =>
          match db.lRange p.2 l with
          | .error e => ((false, some e), db)
          | .ok rest =>
            match db.lTrim 0 (p.1 - 1) with
            | .error e => ((false, some e), db)
            | .ok db1 =>
              match db1.rPush rest with
              | .error e => ((false, some e), db1)
              | .ok db2 => ((true, none), db2)

/-- The state of a `ledisBackend`'s live-handle table (`ledis.go` lines
178-184): `data` maps a stream name to its cached handle.  A handle is
identified by the allocation counter value `next` current when it was
constructed, so two handles constructed at different times are distinct
objects; the table entry carries the handle's identity together with its
`refcnt` field (a Go `int`, hence `Int`). -/
structure HandleTable where
  next : Nat
  data : String → Option (Nat × Int)

/-- `ledisBackend.GetStream` (`ledis.go` lines 206-218), under the table
lock: look up the name; if absent, construct a fresh handle with `refcnt`
0 and insert it; increment the (shared) handle's `refcnt`; return the
handle.  The returned `Nat` is the identity of the returned handle. -/
def GetStream (s : HandleTable) (name : String) : Nat × HandleTable :=
  match s.data name with
  | some (id, rc) =>
      (id, { s with data := fun n => if n = name then some (id, rc + 1) else s.data n })
  | none =>
      (s.next,
       { next := s.next + 1,
         data := fun n => if n = name then some (s.next, 1) else s.data n })

/-- `ledisBackend.release` (`ledis.go` lines 233-241), under the table
lock: decrement the handle's `refcnt`; when it reaches exactly `0`, delete
the table entry for the handle's name.  (When the name is no longer in the
table, only the detached handle's count changes and the table is
untouched.) -/
def release (s : HandleTable) (name : String) : HandleTable :=
  match s.data name with
  | none => s
  | some (id, rc) =>
      if rc - 1 = 0 then { s with data := fun n => if n = name then none else s.data n }
      else { s with data := fun n => if n = name then some (id, rc - 1) else s.data n }

/-- A registry error: `DuplicateType` from `RegisterCreator`, `UnknownType`
from `Create`, each carrying the offending type name. -/
inductive RegErr where
  | duplicateType : String → RegErr
  | unknownType : String → RegErr
deriving DecidableEq, Repr

/-- The process-wide registry state (`create.go` lines 11-12): the Go map
`backends` starts as `nil` (modelled as `none`) and is lazily initialized
by the first registration.  A creator takes an opaque configuration value
`α` and returns a result `β` (which, as in Go, may itself encode the
factory's own failure). -/
structure RegistryState (α β : Type) where
  backends : Option (String → Option (α → β))

/-- Lookup in the registry table; lookup in a `nil` Go map finds
nothing. -/
def RegistryState.lookup (s : RegistryState α β) (btype : String) : Option (α → β) :=
  match s.backends with
  | none => none
  | some m => m btype

/-- `RegisterCreator` (`create.go` lines 14-29): under the table mutex,
initialize the table if it is still `nil`; fail with `DuplicateType` if a
creator is already registered for the name; otherwise insert. -/
def RegisterCreator (s : RegistryState α β) (btype : String) (creator : α → β) :
    Option RegErr × RegistryState α β :=
  let m : String → Option (α → β) :=
    match s.backends with
    | none => fun _ => none
    | some m => m
  match m btype with
  | some _ => (some (.duplicateType btype), { backends := some m })
  | none => (none, { backends := some (fun t => if t = btype then some creator else m t) })

/-- `Create` (`create.go` lines 31-40): under the table mutex, fail with
`UnknownType` if no creator is registered for the name; otherwise invoke
the registered creator on the configuration value and return its
result. -/
def Create (s : RegistryState α β) (btype : String) (args : α) :
    Except RegErr β × RegistryState α β :=
  match s.lookup btype with
  | none => (.error (.unknownType btype), s)
  | some r => (.ok (r args), s)

/-! ### Helper lemmas about the engine's inclusive slices -/

/-- `[t, l]` with `0 ≤ t < l` and `l` the length keeps exactly the suffix
from index `t`. -/
lemma redisSlice_suffix_from (s : List Event) (t l : Int)
    (hl : l = (s.length : Int)) (h0 : 0 ≤ t) (h1 : t < l) :
    redisSlice s t l = s.drop t.toNat := by
  subst hl
  simp only [redisSlice]
  rw [if_neg (by omega : ¬ t < 0), if_neg (by omega : ¬ (s.length : Int) < 0),
    if_neg (by omega : ¬ ((s.length : Int) ≤ t ∨ (s.length : Int) < t))]
  rw [max_eq_left h0, min_eq_right (by omega : (s.length : Int) - 1 ≤ (s.length : Int))]
  exact List.take_of_length_le (by rw [List.length_drop]; omega)

/-- `[0, f-1]` with `0 < f ≤ l` and `l` the length keeps exactly the first
`f` elements. -/
lemma redisSlice_first (s : List Event) (f l : Int)
    (hl : l = (s.length : Int)) (h0 : 0 < f) (h1 : f ≤ l) :
    redisSlice s 0 (f - 1) = s.take f.toNat := by
  subst hl
  simp only [redisSlice]
  rw [if_neg (by omega : ¬ (0:Int) < 0), if_neg (by omega : ¬ f - 1 < 0),
    if_neg (by omega : ¬ ((s.length : Int) ≤ 0 ∨ f - 1 < 0)),
    max_eq_left (le_refl 0), min_eq_left (by omega : f - 1 ≤ (s.length : Int) - 1)]
  rw [(by omega : (f - 1 + 1 - 0).toNat = f.toNat)]
  simp only [Int.toNat_zero, List.drop_zero]

/-! ### Claims -/

/-- C1: the claim states that a successful `Del(0, to)` with normalized
`0 < to' < L` leaves exactly the old suffix `[to', L)`.  The code
(`ledis.go` line 134) calls `LTrim(key, to-1, l)`, whose inclusive range
keeps the old suffix `[to'-1, L)` instead: on the five-element stream
`[e0..e4]`, `Del(0, 2)` succeeds but leaves `drop 1 = [e1, e2, e3, e4]`,
not `drop 2 = [e2, e3, e4]` — an off-by-one against the claim (and against
the half-open `[from, to)` convention every other `Del` branch honors). -/
theorem del_zero_front_off_by_one :
    (Del { stream := [[0], [1], [2], [3], [4]] } 0 2).1 = (true, none) ∧
    (Del { stream := [[0], [1], [2], [3], [4]] } 0 2).2.stream
      = ([[0], [1], [2], [3], [4]] : List Event).drop 1 ∧
    ([[0], [1], [2], [3], [4]] : List Event).drop 1
      ≠ ([[0], [1], [2], [3], [4]] : List Event).drop 2 := by
  decide

/-- C4: the claim states that when raw `from ≠ to` but normalization makes
the bounds equal, `Read` releases the shared lock before returning the
empty sequence.  In the code (`ledis.go` lines 84-86) that branch returns
`stream.Empty(), nil` with no `RUnlock`: on a stream of length 3,
`Read(1, -3)` (normalized `to = 3 + 1 - 3 = 1 = from`) returns the empty
sequence with the shared-hold count increased from 0 to 1. -/
theorem read_norm_empty_keeps_lock :
    Read { stream := [[0], [1], [2]] } 0 1 (-3) = (some .empty, none, 1) := by
  decide

/-- C5: `Del(0, -1)` takes the whole-stream sentinel branch (`ledis.go`
lines 105-111): when `LClear` succeeds it empties the stream and returns
`cnt != 0` with no error — `true` exactly when the stream was non-empty,
`false` on an already-empty stream. -/
theorem del_whole_sentinel (db : DB) (h : db.lclearErr = none) :
    Del db 0 (-1) = ((!db.stream.isEmpty, none), { db with stream := [] }) := by
  simp only [Del, DB.lClear, h, Nat.cast_zero]
  rw [if_neg (by omega : ¬ (0:Int) = -1), if_pos (by simp)]
  cases db.stream <;> simp
  omega

/-- C5 witness: the sentinel on the non-empty stream `[e5, e6]` empties it
and returns `true`; on the empty stream it returns `false`. -/
theorem del_whole_sentinel_inst :
    Del { stream := [[5], [6]] } 0 (-1) = ((true, none), { stream := [] }) ∧
    Del { stream := ([] : List Event) } 0 (-1)
      = ((false, none), { stream := [] }) :=
  ⟨del_whole_sentinel _ rfl, del_whole_sentinel _ rfl⟩

/-- C6: with raw inputs equal, `Read` (`ledis.go` lines 63-67) returns
`stream.Empty()` before acquiring the lock, and `Del` (`ledis.go` lines
95-100) returns `(true, nil)` before mutating anything.  The statement
quantifies over every engine state `db` — including states in which every
engine primitive would fail — and over every prior shared-hold count, so
the conclusion also certifies that no storage call and no lock operation
happens; and the drained empty sequence is immediately exhausted. -/
theorem read_del_raw_equal_noop (db : DB) (readers : Int) (x : Nat) :
    Read db readers x x = (some .empty, none, readers) ∧
    Del db x x = ((true, none), db) := by
  constructor
  · simp [Read]
  · simp [Del]

/-- C7: for valid `(from, to, length)` with `0 ≤ from ≤ to ≤ length`,
normalization of `(from, to - length - 1, length)` — `to` expressed as a
negative offset — yields the same normalized pair as the direct positive
form, and hence `checkRange` returns the same outcome on both. -/
theorem normalize_neg_offset_agrees (f t l : Int) (lbl : String)
    (h0 : 0 ≤ f) (h1 : f ≤ t) (h2 : t ≤ l) :
    normalize f (t - l - 1) l = normalize f t l ∧
    checkRange (normalize f (t - l - 1) l).1 (normalize f (t - l - 1) l).2 l lbl =
      checkRange (normalize f t l).1 (normalize f t l).2 l lbl := by
  have key : normalize f (t - l - 1) l = normalize f t l := by
    simp only [normalize]
    rw [if_pos (by omega : t - l - 1 < 0), if_neg (by omega : ¬ t < 0),
      Prod.mk.injEq]
    exact ⟨rfl, by omega⟩
  exact ⟨key, by rw [key]⟩

/-- C7 witness: `(from, to, length) = (1, 2, 5)`, so the negative offset
form of `to` is `2 - 5 - 1 = -4`. -/
theorem normalize_neg_offset_agrees_inst :
    normalize 1 (2 - 5 - 1) 5 = normalize 1 2 5 ∧
    checkRange (normalize 1 (2 - 5 - 1) 5).1 (normalize 1 (2 - 5 - 1) 5).2 5 "x" =
      checkRange (normalize 1 2 5).1 (normalize 1 2 5).2 5 "x" :=
  normalize_neg_offset_agrees 1 2 5 "x" (by decide) (by decide) (by decide)

/-- C10: when raw `from ≠ to`, `Read` takes the shared lock at `ledis.go`
line 69 and then, on both failure exits — the length query failing (line
72) and `checkRange` failing (line 88) — returns the error with the
shared-hold count still one higher than at entry: no error path releases
the lock, so every failing `Read` leaks one shared acquisition (which an
exclusive `Del` acquisition would then wait on forever). -/
theorem read_error_paths_keep_lock (db : DB) (readers : Int) (afrom : Nat)
    (ato : Int) (e : Err) (hne : (afrom : Int) ≠ ato) :
    (db.llenErr = some e → Read db readers afrom ato = (none, some e, readers + 1)) ∧
    (db.llenErr = none →
      (normalize (afrom : Int) ato (db.stream.length : Int)).1 ≠
        (normalize (afrom : Int) ato (db.stream.length : Int)).2 →
      checkRange (normalize (afrom : Int) ato (db.stream.length : Int)).1
          (normalize (afrom : Int) ato (db.stream.length : Int)).2
          (db.stream.length : Int) "ledisStreamObj.Read" = some e →
      Read db readers afrom ato = (none, some e, readers + 1)) := by
  constructor
  · intro h
    simp only [Read, DB.lLen, h]
    rw [if_neg hne]
  · intro h hp hc
    simp only [Read, DB.lLen, h]
    rw [if_neg hne]
    simp only [if_neg hp, hc]

/-- C10 witness: on a one-element stream, `Read(0, 5)` fails validation
(`5 > 1`) and returns `InvalidRange` with the hold count moved from 0 to
1; with a failing length query, `Read(0, 5)` returns the engine error,
also with the hold count moved from 0 to 1. -/
theorem read_error_paths_keep_lock_inst :
    Read { stream := [[1]], llenErr := some (.engine 3) } 0 0 5
      = (none, some (.engine 3), 1) ∧
    Read { stream := [[1]] } 0 0 5
      = (none, some (.invalidRange "ledisStreamObj.Read"), 1) :=
  ⟨(read_error_paths_keep_lock _ 0 0 5 (.engine 3) (by decide)).1 rfl,
   (read_error_paths_keep_lock _ 0 0 5
      (.invalidRange "ledisStreamObj.Read") (by decide)).2 rfl (by decide) (by decide)⟩

/-- C8: the live-handle table keeps at most one handle per name — the
table maps each name to at most one `(identity, refcnt)` entry, and the
operations never construct a second handle for a cached name.
Concretely: when an entry for `name` is present, `GetStream` returns the
cached handle's identity, bumps its reference count and allocates nothing
(`next` unchanged); when absent, it constructs exactly one fresh handle
(identity `next`, count 1, `next` bumped); entries of other names are
never touched; and `release` removes the entry exactly when the
decremented count is `0`, merely decrementing it otherwise. -/
theorem getStream_release_table (s : HandleTable) (name : String)
    (id : Nat) (rc : Int) :
    (s.data name = some (id, rc) →
      (GetStream s name).1 = id ∧
      (GetStream s name).2.data name = some (id, rc + 1) ∧
      (GetStream s name).2.next = s.next) ∧
    (s.data name = none →
      (GetStream s name).1 = s.next ∧
      (GetStream s name).2.data name = some (s.next, 1) ∧
      (GetStream s name).2.next = s.next + 1) ∧
    (∀ n, n ≠ name →
      (GetStream s name).2.data n = s.data n ∧
      (release s name).data n = s.data n) ∧
    (s.data name = some (id, rc) →
      (release s name).data name =
        if rc - 1 = 0 then none else some (id, rc - 1)) := by
  refine ⟨?_, ?_, ?_, ?_⟩
  · intro h
    simp [GetStream, h]
  · intro h
    simp [GetStream, h]
  · intro n hn
    constructor
    · cases h : s.data name with
      | none => simp [GetStream, h, hn]
      | some v => simp [GetStream, h, hn]
    · cases h : s.data name with
      | none => simp [release, h]
      | some v =>
        by_cases hz : v.2 - 1 = 0 <;> simp [release, h, hn, hz]
  · intro h
    by_cases hz : rc - 1 = 0 <;> simp [release, h, hz]

/-- C8 witness: a table whose `next` counter is 7, with `"a"` cached as
handle 3 at count 2 and `"b"` absent: `GetStream "a"` returns handle 3 at
count 3 without allocating; `GetStream "b"` constructs handle 7; releasing
`"a"` twice first decrements to 1 and then evicts the entry. -/
theorem getStream_release_table_inst :
    (GetStream ⟨7, fun n => if n = "a" then some (3, 2) else none⟩ "a").1 = 3 ∧
    (GetStream ⟨7, fun n => if n = "a" then some (3, 2) else none⟩ "a").2.data "a"
      = some (3, 3) ∧
    (GetStream ⟨7, fun n => if n = "a" then some (3, 2) else none⟩ "a").2.next = 7 ∧
    (GetStream ⟨7, fun n => if n = "a" then some (3, 2) else none⟩ "b").2.data "b"
      = some (7, 1) ∧
    (release ⟨7, fun n => if n = "a" then some (3, 2) else none⟩ "a").data "a"
      = some (3, 1) ∧
    (release ⟨7, fun n => if n = "a" then some (3, 1) else none⟩ "a").data "a"
      = none := by
  refine ⟨?_, ?_, ?_, ?_, ?_, ?_⟩
  · exact ((getStream_release_table _ "a" 3 2).1 (by simp)).1
  · exact ((getStream_release_table _ "a" 3 2).1 (by simp)).2.1
  · exact ((getStream_release_table _ "a" 3 2).1 (by simp)).2.2
  · exact ((getStream_release_table _ "b" 0 0).2.1 (by simp)).2.1
  · exact ((getStream_release_table _ "a" 3 2).2.2.2 (by simp)).trans (by simp)
  · exact ((getStream_release_table _ "a" 3 1).2.2.2 (by simp)).trans (by simp)

/-- C9: the registry (`create.go`): registering a name that already has a
creator fails with `DuplicateType` and returns the table unchanged;
`Create` on an unregistered name fails with `UnknownType`; `Create` on a
registered name invokes the registered creator on the given configuration
value and returns its result. -/
theorem registry_behavior (α β : Type) (s : RegistryState α β)
    (btype : String) (creator made : α → β) (args : α) :
    (s.lookup btype = some made →
      RegisterCreator s btype creator = (some (.duplicateType btype), s)) ∧
    (s.lookup btype = none →
      Create s btype args = (.error (.unknownType btype), s)) ∧
    (s.lookup btype = some made →
      Create s btype args = (.ok (made args), s)) := by
  refine ⟨?_, ?_, ?_⟩
  · intro h
    cases s with
    | mk b =>
      cases b with
      | none => simp [RegistryState.lookup] at h
      | some m =>
        have hm : m btype = some made := h
        simp [RegisterCreator, hm]
  · intro h
    simp [Create, h]
  · intro h
    simp [Create, h]

/-- C9 witness: a registry with only `"ledis"` registered (to the creator
`fun n => n + 1` over `Nat` configurations): re-registering `"ledis"`
fails with `DuplicateType` leaving the table as it was, `Create "mem"`
fails with `UnknownType`, and `Create "ledis" 4` returns the creator's
result `5`. -/
theorem registry_behavior_inst :
    RegisterCreator
        (⟨some fun t => if t = "ledis" then some (fun n => n + 1) else none⟩ :
          RegistryState Nat Nat) "ledis" (fun n => n)
      = (some (.duplicateType "ledis"),
         ⟨some fun t => if t = "ledis" then some (fun n => n + 1) else none⟩) ∧
    Create
        (⟨some fun t => if t = "ledis" then some (fun n => n + 1) else none⟩ :
          RegistryState Nat Nat) "mem" 4
      = (.error (.unknownType "mem"),
         ⟨some fun t => if t = "ledis" then some (fun n => n + 1) else none⟩) ∧
    Create
        (⟨some fun t => if t = "ledis" then some (fun n => n + 1) else none⟩ :
          RegistryState Nat Nat) "ledis" 4
      = (.ok 5,
         ⟨some fun t => if t = "ledis" then some (fun n => n + 1) else none⟩) :=
  ⟨(registry_behavior Nat Nat _ "ledis" (fun n => n) (fun n => n + 1) 4).1 rfl,
   (registry_behavior Nat Nat _ "mem" (fun n => n) (fun n => n + 1) 4).2.1 rfl,
   (registry_behavior Nat Nat _ "ledis" (fun n => n) (fun n => n + 1) 4).2.2 rfl⟩

/-- The general middle-range path of `Del` (`ledis.go` lines 143-162):
with the length query, tail read and trim all succeeding and the
normalized bounds `0 < from < to' < L`, `Del` reads the tail
`[to', L)`, trims to the first `from` elements, and hands the saved tail
to `RPush`, returning `(true, nil)` on success and the engine's `RPush`
error verbatim on failure (with the stream left truncated). -/
lemma del_middle_path (db : DB) (afrom : Nat) (ato t' : Int)
    (hlen : db.llenErr = none) (hrange : db.lrangeErr = none)
    (htrim : db.ltrimErr = none)
    (ht : t' = (normalize (afrom : Int) ato (db.stream.length : Int)).2)
    (h0 : 0 < (afrom : Int)) (h1 : (afrom : Int) < t')
    (h2 : t' < (db.stream.length : Int)) :
    Del db afrom ato =
      match ({ db with stream := db.stream.take afrom } : DB).rPush
          (db.stream.drop t'.toNat) with
      | .error e => ((false, some e), { db with stream := db.stream.take afrom })
      | .ok db2 => ((true, none), db2) := by
  have ht2 : t' = if ato < 0 then (db.stream.length : Int) + 1 + ato else ato := by
    simpa [normalize] using ht
  have hfn : ¬ ((afrom : Int) < 0) := by omega
  have hfne : (afrom : Int) ≠ ato := by
    by_cases hc : ato < 0
    · omega
    · rw [if_neg hc] at ht2
      omega
  simp only [Del, DB.lLen, hlen, normalize]
  rw [if_neg hfne, if_neg (by omega : ¬ ((afrom : Int) = 0 ∧ ato = -1)),
    if_neg hfn]
  by_cases hc : ato < 0
  · rw [if_pos hc] at ht2 ⊢
    rw [(by omega : (db.stream.length : Int) + 1 + ato = t')]
    rw [if_neg (by omega : ¬ ((afrom : Int) = 0 ∧ t' = (db.stream.length : Int))),
      if_neg (by omega : ¬ (afrom : Int) = 0),
      if_neg (by omega : ¬ t' = (db.stream.length : Int))]
    simp only [checkRange, DB.lRange, hrange, DB.lTrim, htrim]
    rw [if_pos (by omega :
        (0:Int) ≤ (afrom : Int) ∧ (afrom : Int) ≤ t' ∧ t' ≤ (db.stream.length : Int)),
      redisSlice_suffix_from db.stream t' _ rfl (by omega) h2,
      redisSlice_first db.stream (afrom : Int) _ rfl (by omega) (by omega),
      Int.toNat_natCast]
    simp only [hlen, hrange, htrim]
  · rw [if_neg hc] at ht2
    rw [if_neg hc, (by omega : ato = t')]
    rw [if_neg (by omega : ¬ ((afrom : Int) = 0 ∧ t' = (db.stream.length : Int))),
      if_neg (by omega : ¬ (afrom : Int) = 0),
      if_neg (by omega : ¬ t' = (db.stream.length : Int))]
    simp only [checkRange, DB.lRange, hrange, DB.lTrim, htrim]
    rw [if_pos (by omega :
        (0:Int) ≤ (afrom : Int) ∧ (afrom : Int) ≤ t' ∧ t' ≤ (db.stream.length : Int)),
      redisSlice_suffix_from db.stream t' _ rfl (by omega) h2,
      redisSlice_first db.stream (afrom : Int) _ rfl (by omega) (by omega),
      Int.toNat_natCast]
    simp only [hlen, hrange, htrim]

/-- C2: a successful middle-range `Del` (normalized `0 < from < to' < L`,
every engine step succeeding) leaves exactly the old elements `[0, from)`
followed by the old elements `[to', L)`; and on the concrete five-element
stream, `Del(1, 4)` leaves `[e0, e4]`, and `Read(0, 2)` (the post-delete
length) hands out an iterator over `[0, 2)` which, driven to exhaustion,
yields exactly `[e0, e4]` and releases its shared-lock hold. -/
theorem del_middle_keeps_ends :
    (∀ (db : DB) (afrom : Nat) (ato t' : Int),
      db.llenErr = none → db.lrangeErr = none → db.ltrimErr = none →
      db.rpushErr = none →
      t' = (normalize (afrom : Int) ato (db.stream.length : Int)).2 →
      0 < (afrom : Int) → (afrom : Int) < t' → t' < (db.stream.length : Int) →
      Del db afrom ato =
        ((true, none),
         { db with stream := db.stream.take afrom ++ db.stream.drop t'.toNat })) ∧
    ((Del { stream := [[0], [1], [2], [3], [4]] } 1 4).2.stream = [[0], [4]] ∧
     Read (Del { stream := [[0], [1], [2], [3], [4]] } 1 4).2 0 0 2
       = (some (.iter 0 2), none, 1) ∧
     drain (Del { stream := [[0], [1], [2], [3], [4]] } 1 4).2 1 ⟨0, 2⟩
       = ([[0], [4]], some .eoi, 0)) := by
  constructor
  · intro db afrom ato t' hlen hrange htrim hpush ht h0 h1 h2
    rw [del_middle_path db afrom ato t' hlen hrange htrim ht h0 h1 h2]
    simp only [DB.rPush, hpush]
  · exact ⟨by decide, by decide, by decide⟩

/-- C2 witness: `Del(2, -2)` on the five-element stream normalizes `to` to
`5 + 1 - 2 = 4` and keeps `take 2 ++ drop 4 = [e0, e1, e4]`. -/
theorem del_middle_keeps_ends_inst :
    Del { stream := [[0], [1], [2], [3], [4]] } 2 (-2)
      = ((true, none), { stream := [[0], [1], [4]] }) :=
  (del_middle_keeps_ends.1 { stream := [[0], [1], [2], [3], [4]] } 2 (-2) 4
    rfl rfl rfl rfl (by decide) (by decide) (by decide) (by decide)).trans
    (by decide)

/-- C3 counterexample: the claim says a re-append failure after a
successful trim is surfaced as a failure distinguishable from an ordinary
engine failure, not as the engine's error verbatim.  In the code
(`ledis.go` lines 158-162), `RPush`'s error is only logged and then
returned as-is: on the five-element stream, `Del(1, 4)` with `RPush`
failing with engine error 7 (data lost: the stream is left truncated to
`[e0]`) returns exactly the `(false, engine 7)` that `Del(1, 4)` with
`LTrim` failing with engine error 7 (nothing mutated) also returns — the
two outcomes are indistinguishable to the caller. -/
theorem del_tail_loss_error_verbatim :
    (Del { stream := [[0], [1], [2], [3], [4]], rpushErr := some (.engine 7) } 1 4).1
      = (false, some (.engine 7)) ∧
    (Del { stream := [[0], [1], [2], [3], [4]], ltrimErr := some (.engine 7) } 1 4).1
      = (false, some (.engine 7)) ∧
    (Del { stream := [[0], [1], [2], [3], [4]], rpushErr := some (.engine 7) } 1 4).2.stream
      = [[0]] ∧
    (Del { stream := [[0], [1], [2], [3], [4]], ltrimErr := some (.engine 7) } 1 4).2.stream
      = [[0], [1], [2], [3], [4]] := by
  refine ⟨by decide, by decide, by decide, by decide⟩

/-- C3 amended: in the general middle-range case, if the tail read and the
trim succeed but the re-append fails with engine error `e`, `Del` logs a
warning and returns `(false, e)` — the engine's error surfaced verbatim,
with no distinguishing annotation — leaving the stream truncated to the
old prefix `[0, from)` (the tail is lost). -/
theorem del_middle_push_fail_surfaced :
    ∀ (db : DB) (afrom : Nat) (ato t' : Int) (e : Err),
      db.llenErr = none → db.lrangeErr = none → db.ltrimErr = none →
      db.rpushErr = some e →
      t' = (normalize (afrom : Int) ato (db.stream.length : Int)).2 →
      0 < (afrom : Int) → (afrom : Int) < t' → t' < (db.stream.length : Int) →
      Del db afrom ato = ((false, some e), { db with stream := db.stream.take afrom }) := by
  intro db afrom ato t' e hlen hrange htrim hpush ht h0 h1 h2
  rw [del_middle_path db afrom ato t' hlen hrange htrim ht h0 h1 h2]
  simp only [DB.rPush, hpush]

/-- C3 amended witness: the data-loss window on the concrete stream. -/
theorem del_middle_push_fail_surfaced_inst :
    Del { stream := [[0], [1], [2], [3], [4]], rpushErr := some (.engine 7) } 1 4
      = ((false, some (.engine 7)),
         { stream := [[0]], rpushErr := some (.engine 7) }) :=
  (del_middle_push_fail_surfaced
    { stream := [[0], [1], [2], [3], [4]], rpushErr := some (.engine 7) }
    1 4 4 (.engine 7) rfl rfl rfl rfl (by decide) (by decide) (by decide)
    (by decide)).trans (by decide)

end Golfstream
